import Mathlib

/-!
Shallow embedding of `projects/KTNv2/densepose/densepose_head.py` (KTN repository)
and verification of claims about its point-sampling utilities, loss functions,
predictor weight generation, inference slicing and data filtering.

Tensor values are embedded as functions from indices; float arithmetic is
idealized as exact rational (`ℚ`) arithmetic where the source only uses
field operations, comparisons and floor, and as real (`ℝ`) arithmetic where
the source uses transcendental functions (`exp`, `log`, `softplus`, `softmax`).
-/

namespace KTN

/-! ### `_linear_interpolation_utilities` (densepose_head.py, lines 1554-1597)

Python source of the computational part:
```
v = v0_src + v_norm * size_src / 256.0
j_valid = (v - v0_dst >= 0) * (v - v0_dst < size_dst)
v_grid = (v - v0_dst) * size_z / size_dst
v_lo = v_grid.floor().long().clamp(min=0, max=size_z - 1)
v_hi = (v_lo + 1).clamp(max=size_z - 1)
v_grid = torch.min(v_hi.float(), v_grid)
v_w = v_grid - v_lo.float()
return v_lo, v_hi, v_w, j_valid
```
`torch.clamp(x, lo, hi)` computes `min (max x lo) hi`.  All tensor operations
are elementwise, so the embedding is per scalar element. -/

structure LinInterp where
  v_lo : ℤ
  v_hi : ℤ
  v_w : ℚ
  j_valid : Bool
  deriving Repr, DecidableEq

/-- Embedding of `_linear_interpolation_utilities`, per element. -/
def linearInterpolationUtilities (v_norm v0_src size_src v0_dst size_dst : ℚ)
    (size_z : ℤ) : LinInterp :=
  let v := v0_src + v_norm * size_src / 256
  let j_valid := decide (0 ≤ v - v0_dst ∧ v - v0_dst < size_dst)
  let v_grid := (v - v0_dst) * (size_z : ℚ) / size_dst
  let v_lo := min (max ⌊v_grid⌋ 0) (size_z - 1)
  let v_hi := min (v_lo + 1) (size_z - 1)
  let v_grid2 := min ((v_hi : ℚ)) v_grid
  let v_w := v_grid2 - (v_lo : ℚ)
  ⟨v_lo, v_hi, v_w, j_valid⟩

/-! ### `_grid_sampling_utilities` (densepose_head.py, lines 1600-1662)

The source gathers per-point bounding boxes `bbox_xywh_gt[index_bbox]`
and `bbox_xywh_est[index_bbox]`, unbinds them into x0, y0, w, h, invokes
`_linear_interpolation_utilities` once along x and once along y, and forms
the four bilinear weights.  The embedding is per ground-truth point `p`. -/

structure BoxXYWH where
  x0 : ℚ
  y0 : ℚ
  w : ℚ
  h : ℚ

structure GridSampling where
  j_valid : Bool
  y_lo : ℤ
  y_hi : ℤ
  x_lo : ℤ
  x_hi : ℤ
  w_ylo_xlo : ℚ
  w_ylo_xhi : ℚ
  w_yhi_xlo : ℚ
  w_yhi_xhi : ℚ

/-- Embedding of `_grid_sampling_utilities`, per ground-truth point `p`. -/
def gridSamplingUtilities (zh zw : ℕ) (bbox_xywh_est bbox_xywh_gt : ℕ → BoxXYWH)
    (x_norm y_norm : ℕ → ℚ) (index_bbox : ℕ → ℕ) (p : ℕ) : GridSampling :=
  let bgt := bbox_xywh_gt (index_bbox p)
  let best := bbox_xywh_est (index_bbox p)
  let X := linearInterpolationUtilities (x_norm p) bgt.x0 bgt.w best.x0 best.w (zw : ℤ)
  let Y := linearInterpolationUtilities (y_norm p) bgt.y0 bgt.h best.y0 best.h (zh : ℤ)
  { j_valid := X.j_valid && Y.j_valid
    y_lo := Y.v_lo
    y_hi := Y.v_hi
    x_lo := X.v_lo
    x_hi := X.v_hi
    w_ylo_xlo := (1 - X.v_w) * (1 - Y.v_w)
    w_ylo_xhi := X.v_w * (1 - Y.v_w)
    w_yhi_xlo := (1 - X.v_w) * Y.v_w
    w_yhi_xhi := X.v_w * Y.v_w }

/-! ### `_extract_at_points_packed` (densepose_head.py, lines 1665-1702)

Embedding of the `block=False` branch (the only branch the claims concern):
```
z_est_sampled = (
    z_est[index_bbox_valid, slice_index_uv, y_lo, x_lo] * w_ylo_xlo
    + z_est[index_bbox_valid, slice_index_uv, y_lo, x_hi] * w_ylo_xhi
    + z_est[index_bbox_valid, slice_index_uv, y_hi, x_lo] * w_yhi_xlo
    + z_est[index_bbox_valid, slice_index_uv, y_hi, x_hi] * w_yhi_xhi
)
```
The batched tensor `z_est` is embedded as a function of batch index, channel
index and the two spatial indices; all index tensors are functions of the
point index `p`. -/

/-- Embedding of `_extract_at_points_packed` with `block=False`, per point `p`. -/
def extractAtPointsPacked (z_est : ℕ → ℕ → ℤ → ℤ → ℚ)
    (index_bbox_valid slice_index_uv : ℕ → ℕ)
    (y_lo y_hi x_lo x_hi : ℕ → ℤ)
    (w_ylo_xlo w_ylo_xhi w_yhi_xlo w_yhi_xhi : ℕ → ℚ) (p : ℕ) : ℚ :=
  z_est (index_bbox_valid p) (slice_index_uv p) (y_lo p) (x_lo p) * w_ylo_xlo p
    + z_est (index_bbox_valid p) (slice_index_uv p) (y_lo p) (x_hi p) * w_ylo_xhi p
    + z_est (index_bbox_valid p) (slice_index_uv p) (y_hi p) (x_lo p) * w_yhi_xlo p
    + z_est (index_bbox_valid p) (slice_index_uv p) (y_hi p) (x_hi p) * w_yhi_xhi p

/-! ### `IIDIsotropicGaussianUVLoss` (densepose_head.py, lines 1946-1980)

Python source of `forward`:
```
sigma2 = F.softplus(sigma_u) + self.sigma_lower_bound
delta_t_delta = (u - target_u) ** 2 + (v - target_v) ** 2
loss = 0.5 * (self.log2pi + 2 * torch.log(sigma2) + delta_t_delta / sigma2)
return loss.sum()
```
with `self.log2pi = math.log(2 * math.pi)`.  Tensors of equal size are embedded
as functions `ℕ → ℝ` together with their common length `n`; `F.softplus` is
`x ↦ log (1 + exp x)`. -/

/-- PyTorch `F.softplus` with default `beta = 1`. -/
noncomputable def softplus (x : ℝ) : ℝ := Real.log (1 + Real.exp x)

/-- The constant `math.log(2 * math.pi)` stored by the loss modules. -/
noncomputable def log2pi : ℝ := Real.log (2 * Real.pi)

structure IIDIsotropicGaussianUVLoss where
  sigma_lower_bound : ℝ

/-- Embedding of `IIDIsotropicGaussianUVLoss.forward`. -/
noncomputable def IIDIsotropicGaussianUVLoss.forward (self : IIDIsotropicGaussianUVLoss)
    (n : ℕ) (u v sigma_u target_u target_v : ℕ → ℝ) : ℝ :=
  let sigma2 : ℕ → ℝ := fun i => softplus (sigma_u i) + self.sigma_lower_bound
  let delta_t_delta : ℕ → ℝ := fun i => (u i - target_u i) ^ 2 + (v i - target_v i) ^ 2
  let loss : ℕ → ℝ := fun i =>
    0.5 * (log2pi + 2 * Real.log (sigma2 i) + delta_t_delta i / sigma2 i)
  ∑ i in Finset.range n, loss i

/-! ### `densepose_inference` (densepose_head.py, lines 1396-1470)

Python source of the slicing loop (confidence tensors are sliced with the
same `[k : k + n_i]` expression and are elided here):
```
k = 0
for detection in detections:
    n_i = len(detection)
    s_i = s[k : k + n_i]
    index_uv_i = index_uv[k : k + n_i]
    u_i = u[k : k + n_i]
    v_i = v[k : k + n_i]
    ...
    densepose_output_i = DensePoseOutput(s_i, index_uv_i, u_i, v_i, ...)
    detection.pred_densepose = densepose_output_i
    k += n_i
```
Each output tensor is embedded as a function of its batch-row index (the
remaining axes play no role in the slicing); a detection is represented by its
instance count `n_i`, and the `DensePoseOutput` assigned to it holds the four
row-reindexed tensors together with its row count. -/

@[ext]
structure DensePoseOutputSlice (α : Type) where
  s : ℕ → α
  index_uv : ℕ → α
  u : ℕ → α
  v : ℕ → α
  n : ℕ

/-- Embedding of the `densepose_inference` loop: starting at row offset `k`,
assign to each detection the `pred_densepose` output built from rows
`[k, k + n_i)` of every tensor, then advance `k` by `n_i`. -/
def denseposeInference {α : Type} (s index_uv u v : ℕ → α) :
    ℕ → List ℕ → List (DensePoseOutputSlice α)
  | _, [] => []
  | k, n :: rest =>
    { s := fun r => s (k + r)
      index_uv := fun r => index_uv (k + r)
      u := fun r => u (k + r)
      v := fun r => v (k + r)
      n := n } :: denseposeInference s index_uv u v (k + n) rest

/-- Row offset at which detection `j` starts: the sum of the instance counts of
all earlier detections. -/
def sliceStart (counts : List ℕ) (j : ℕ) : ℕ := (counts.take j).sum

/-! ### `DensePoseDataFilter` (densepose_head.py, lines 1301-1381)

A detectron2 `Instances` object is a bundle of per-proposal fields of equal
length; indexing it with a boolean mask or an index list selects the same rows
from every field.  It is embedded as a list of aligned rows, together with two
flags recording whether the optional fields `gt_densepose` / `gt_masks` are
present on the object (`hasattr` in the source).  When a field is absent the
source substitutes `[None] * N` for it.  IoU computation
(`matched_boxlist_iou`) belongs to the surrounding detection framework and is
taken as a parameter. -/

structure PropRow (Box DP Mask : Type) where
  gt_box : Box
  proposal_box : Box
  dp : Option DP
  mask : Option Mask

structure ImageProposals (Box DP Mask : Type) where
  rows : List (PropRow Box DP Mask)
  has_gt_densepose : Bool
  has_gt_masks : Bool

structure DensePoseDataFilter where
  iou_threshold : ℚ
  keep_masks : Bool

/-- Per-image body of the `DensePoseDataFilter.__call__` loop: `none` models
`continue` (the image is skipped), otherwise the image is kept with the rows
that survive the IoU filter and carry a suitable ground-truth target. -/
def DensePoseDataFilter.filterImage {Box DP Mask : Type} (self : DensePoseDataFilter)
    (iou : Box → Box → ℚ) (img : ImageProposals Box DP Mask) :
    Option (ImageProposals Box DP Mask) :=
  if img.has_gt_densepose = false ∧ (img.has_gt_masks = false ∨ self.keep_masks = false) then
    none
  else
    let rows1 := img.rows.filter fun r =>
      decide (self.iou_threshold < iou r.gt_box r.proposal_box)
    let selected := rows1.filter fun r =>
      (if img.has_gt_densepose then r.dp else none).isSome
        || (if self.keep_masks && img.has_gt_masks then r.mask else none).isSome
    some { rows := selected
           has_gt_densepose := img.has_gt_densepose
           has_gt_masks := img.has_gt_masks }

/-- Embedding of `DensePoseDataFilter.__call__`: returns the features
unchanged together with the filtered proposal list. -/
def DensePoseDataFilter.call {Box DP Mask F : Type} (self : DensePoseDataFilter)
    (iou : Box → Box → ℚ) (features : F)
    (proposals_with_targets : List (ImageProposals Box DP Mask)) :
    F × List (ImageProposals Box DP Mask) :=
  (features, proposals_with_targets.filterMap (self.filterImage iou))

/-! ### `dp_keypoint_rcnn_loss` (densepose_head.py, lines 1260-1299)

Python source:
```
for instances_per_image in instances:
    if len(instances_per_image) == 0:
        continue
    keypoints = instances_per_image.gt_keypoints
    heatmaps_per_image, valid_per_image = keypoints.to_heatmap(
        instances_per_image.proposal_boxes.tensor, keypoint_side_len)
    heatmaps.append(heatmaps_per_image.view(-1))
    valid.append(valid_per_image.view(-1))
if len(heatmaps):
    keypoint_targets = torch.cat(heatmaps, dim=0)
    valid = torch.cat(valid, dim=0).to(dtype=torch.uint8)
    valid = torch.nonzero(valid).squeeze(1)
if len(heatmaps) == 0 or valid.numel() == 0:
    return pred_keypoint_logits.sum() * 0
N, K, H, W = pred_keypoint_logits.shape
pred_keypoint_logits = pred_keypoint_logits.view(N * K, H * W)
keypoint_loss = F.cross_entropy(
    pred_keypoint_logits[valid], keypoint_targets[valid], reduction="sum")
if normalizer is None:
    normalizer = valid.numel()
keypoint_loss /= normalizer
return keypoint_loss
```
`Keypoints.to_heatmap` belongs to the surrounding framework; each image is
embedded as its instance count together with the flattened
(heatmap target, validity) pairs that `to_heatmap` yields for it.  The logits
tensor is embedded in its `(N*K, H*W)` view as a function of row and class,
and `F.cross_entropy(x, t)` per row is `log (Σ_c exp x_c) - x_t`. -/

structure KeypointImage where
  n_instances : ℕ
  kpts : List (ℕ × Bool)
  deriving DecidableEq

/-- Cross-entropy of one logits row against a target class index. -/
noncomputable def crossEntropyRow (logits : ℕ → ℕ → ℝ) (HW row target : ℕ) : ℝ :=
  Real.log (∑ c in Finset.range HW, Real.exp (logits row c)) - logits row target

/-- The images that contribute to `heatmaps` / `valid` (the per-image loop
skips images with `len(instances_per_image) == 0`). -/
def kptContributing (instances : List KeypointImage) : List KeypointImage :=
  instances.filter fun im => im.n_instances ≠ 0

/-- The concatenated `(keypoint_targets, valid)` pairs
(`torch.cat(heatmaps, 0)` zipped with `torch.cat(valid, 0)`). -/
def kptPairs (instances : List KeypointImage) : List (ℕ × Bool) :=
  ((kptContributing instances).map KeypointImage.kpts).flatten

/-- The rows selected by `torch.nonzero(valid)`: global row index together
with its (target, validity) pair, restricted to valid rows. -/
def kptValidRows (instances : List KeypointImage) : List (ℕ × (ℕ × Bool)) :=
  (kptPairs instances).enum.filter fun p => p.2.2

/-- Embedding of `dp_keypoint_rcnn_loss`. -/
noncomputable def dpKeypointRcnnLoss (logits : ℕ → ℕ → ℝ) (NK HW : ℕ)
    (instances : List KeypointImage) (normalizer : Option ℝ) : ℝ :=
  if kptContributing instances = [] ∨ kptValidRows instances = [] then
    (∑ r in Finset.range NK, ∑ c in Finset.range HW, logits r c) * 0
  else
    ((kptValidRows instances).map fun p => crossEntropyRow logits HW p.1 p.2.1).sum /
      (match normalizer with
        | some nrm => nrm
        | none => ((kptValidRows instances).length : ℝ))

/-! ### `DensePoseKTNv2PredictorV3` (densepose_head.py, lines 1156-1258)

Matrices and 4-D kernels are embedded as index functions with their sizes kept
as explicit fields.  Python source of `cascade_generate_surface_weights`:
```
kpt_weight = self.body_kpt_weight
part_weight = self.ann_index_lowres.weight
n_in, n_out, h, w = kpt_weight.size(0), ..., kpt_weight.size(3)
kpt_weight = kpt_weight.permute((1, 0, 2, 3)).reshape((n_out, n_in * h * w))
n_in, n_out, h, w = part_weight.size()
part_weight = part_weight.permute((1, 0, 2, 3)).reshape((n_out, n_in * h * w))
body_surface_param_from_box = torch.matmul(self.bbox_surface_transfer_matrix, bbox_weight)
body_surface_param_from_kpt = torch.matmul(self.kpt_surface_transfer_matrix, kpt_weight)
body_surface_param_from_part = torch.matmul(self.part_surface_transfer_matrix, part_weight)
syn_body_surface_params = torch.cat([body_surface_param_from_kpt,
    body_surface_param_from_box, body_surface_param_from_part], dim=1)
body_surface_weight = self.parameter_transformer(syn_body_surface_params)
body_surface_weight = body_surface_weight.reshape(
    (self.kpt_surface_transfer_matrix.size(0), n_in, h, w)).permute((1, 0, 2, 3))
return body_surface_weight
```
and of the relevant line of `forward`:
```
body_surface_weight_from_all = self.cascade_generate_surface_weights(bbox_params)
index_uv_from_all_lowres = nn.functional.conv_transpose2d(head_outputs,
    weight=body_surface_weight_from_all, padding=int(self.kernel_size / 2 - 1), stride=2)
```
`parameter_transformer` is `Sequential(Linear(iws+iws+bbox_weight_size, iws),
LeakyReLU(0.02), Linear(iws, iws))` with `iws = dim_in * kernel_size ** 2`. -/

/-- `torch.matmul` of an `(m, k)` by a `(k, n)` matrix, as index functions. -/
def matmul (k : ℕ) (A B : ℕ → ℕ → ℚ) : ℕ → ℕ → ℚ :=
  fun i j => ∑ t in Finset.range k, A i t * B t j

/-- `nn.LeakyReLU(0.02)`, elementwise. -/
def leakyReLU (x : ℚ) : ℚ := if 0 ≤ x then x else (2 / 100) * x

/-- `nn.Linear` applied to a batch of rows: `y = x Wᵀ + b` with `W : (out, in)`
and contraction over the `in_features` columns of `x`. -/
def linear (in_features : ℕ) (W : ℕ → ℕ → ℚ) (b : ℕ → ℚ) (x : ℕ → ℕ → ℚ) : ℕ → ℕ → ℚ :=
  fun i o => (∑ t in Finset.range in_features, x i t * W o t) + b o

/-- `weight.permute((1, 0, 2, 3)).reshape((n_out, n_in * h * w))` for a 4-D
kernel of shape `(n_in, n_out, h, w)`: row `o`, flattened column
`i * h * w + y * w + x`. -/
def permuteFlatten (h w : ℕ) (weight : ℕ → ℕ → ℕ → ℕ → ℚ) : ℕ → ℕ → ℚ :=
  fun o c => weight (c / (h * w)) o (c % (h * w) / w) (c % (h * w) % w)

/-- `torch.cat([A, B, C], dim=1)` where `A` has `w1` columns and `B` has `w2`
columns. -/
def cat3 (w1 w2 : ℕ) (A B C : ℕ → ℕ → ℚ) : ℕ → ℕ → ℚ :=
  fun i c => if c < w1 then A i c else if c < w1 + w2 then B i (c - w1) else C i (c - w1 - w2)

/-- `T.reshape((S, n_in, h, w)).permute((1, 0, 2, 3))` for a matrix `T` of
shape `(S, n_in * h * w)`. -/
def reshapePermuteBack (h w : ℕ) (T : ℕ → ℕ → ℚ) : ℕ → ℕ → ℕ → ℕ → ℚ :=
  fun i s y x => T s (i * (h * w) + y * w + x)

/-- `nn.functional.conv_transpose2d` on an input of shape `(N, Cin, H, W)`
with a kernel of shape `(Cin, Cout, kh, kw)`: output element `(n, co, oy, ox)`
accumulates `input[n, ci, iy, ix] * weight[ci, co, ky, kx]` over all positions
with `iy * stride + ky = oy + padding` and `ix * stride + kx = ox + padding`. -/
def convTranspose2d (Cin H W kh kw stride padding : ℕ)
    (input : ℕ → ℕ → ℕ → ℕ → ℚ) (weight : ℕ → ℕ → ℕ → ℕ → ℚ) (bias : ℕ → ℚ)
    (n co oy ox : ℕ) : ℚ :=
  bias co + ∑ ci in Finset.range Cin, ∑ iy in Finset.range H, ∑ ix in Finset.range W,
    ∑ ky in Finset.range kh, ∑ kx in Finset.range kw,
      if iy * stride + ky = oy + padding ∧ ix * stride + kx = ox + padding then
        input n ci iy ix * weight ci co ky kx
      else 0

/-- The learned state of `DensePoseKTNv2PredictorV3` relevant to the cascaded
surface-weight generation.  `S` records `kpt_surface_transfer_matrix.size(0)`;
`kpt_n_in`, `kpt_n_out`, `kpt_h`, `kpt_w` record the shape of the loaded
keypoint classifier kernel `body_kpt_weight`; `ann_index_lowres_weight` is the
kernel of the `ConvTranspose2d(dim_in, dim_out_ann_index, kernel_size)` layer
`ann_index_lowres`, of shape `(dim_in, dim_out_ann_index, kernel_size,
kernel_size)`; `pt_W1`, `pt_b1`, `pt_W2`, `pt_b2` are the parameters of the
two `Linear` layers of `parameter_transformer`. -/
structure DensePoseKTNv2PredictorV3 where
  dim_in : ℕ
  kernel_size : ℕ
  dim_out_ann_index : ℕ
  bbox_weight_size : ℕ
  S : ℕ
  kpt_n_in : ℕ
  kpt_n_out : ℕ
  kpt_h : ℕ
  kpt_w : ℕ
  body_kpt_weight : ℕ → ℕ → ℕ → ℕ → ℚ
  body_kpt_bias : ℕ → ℚ
  kpt_surface_transfer_matrix : ℕ → ℕ → ℚ
  bbox_surface_transfer_matrix : ℕ → ℕ → ℚ
  part_surface_transfer_matrix : ℕ → ℕ → ℚ
  ann_index_lowres_weight : ℕ → ℕ → ℕ → ℕ → ℚ
  pt_W1 : ℕ → ℕ → ℚ
  pt_b1 : ℕ → ℚ
  pt_W2 : ℕ → ℕ → ℚ
  pt_b2 : ℕ → ℚ

/-- `index_weight_size = dim_in * self.kernel_size * self.kernel_size`. -/
def DensePoseKTNv2PredictorV3.index_weight_size (self : DensePoseKTNv2PredictorV3) : ℕ :=
  self.dim_in * self.kernel_size * self.kernel_size

/-- Embedding of `self.parameter_transformer`:
`Linear`, `LeakyReLU(0.02)`, `Linear` applied to a batch of rows. -/
def DensePoseKTNv2PredictorV3.parameter_transformer (self : DensePoseKTNv2PredictorV3)
    (x : ℕ → ℕ → ℚ) : ℕ → ℕ → ℚ :=
  let h1 := linear (self.index_weight_size + self.index_weight_size + self.bbox_weight_size)
    self.pt_W1 self.pt_b1 x
  linear self.index_weight_size self.pt_W2 self.pt_b2 (fun i o => leakyReLU (h1 i o))

/-- Embedding of `DensePoseKTNv2PredictorV3.cascade_generate_surface_weights`. -/
def DensePoseKTNv2PredictorV3.cascade_generate_surface_weights
    (self : DensePoseKTNv2PredictorV3) (bbox_weight : ℕ → ℕ → ℚ) :
    ℕ → ℕ → ℕ → ℕ → ℚ :=
  let kpt_weight := permuteFlatten self.kpt_h self.kpt_w self.body_kpt_weight
  let part_weight := permuteFlatten self.kernel_size self.kernel_size self.ann_index_lowres_weight
  let body_surface_param_from_box := matmul 6 self.bbox_surface_transfer_matrix bbox_weight
  let body_surface_param_from_kpt :=
    matmul self.kpt_n_out self.kpt_surface_transfer_matrix kpt_weight
  let body_surface_param_from_part :=
    matmul self.dim_out_ann_index self.part_surface_transfer_matrix part_weight
  let syn_body_surface_params := cat3 (self.kpt_n_in * self.kpt_h * self.kpt_w)
    self.bbox_weight_size body_surface_param_from_kpt body_surface_param_from_box
    body_surface_param_from_part
  let body_surface_weight := self.parameter_transformer syn_body_surface_params
  reshapePermuteBack self.kernel_size self.kernel_size body_surface_weight

/-- Embedding of the `forward` line computing `index_uv_from_all_lowres` from
`head_outputs` (shape `(N, dim_in, H, W)`) and the generated surface weight. -/
def DensePoseKTNv2PredictorV3.forward_index_uv_from_all_lowres
    (self : DensePoseKTNv2PredictorV3) (head_outputs : ℕ → ℕ → ℕ → ℕ → ℚ)
    (H W : ℕ) (bbox_params : ℕ → ℕ → ℚ) : ℕ → ℕ → ℕ → ℕ → ℚ :=
  fun n co oy ox =>
    convTranspose2d self.dim_in H W self.kernel_size self.kernel_size 2
      (self.kernel_size / 2 - 1) head_outputs
      (self.cascade_generate_surface_weights bbox_params) (fun _ => 0) n co oy ox

/-! ### `DensePoseLosses.produce_densepose_losses` and
`produce_fake_densepose_losses` (densepose_head.py, lines 2100-2175, 2305-2352)

`DensePoseUVConfidenceType` has exactly the two members `IID_ISO` and
`INDEP_ANISO` (lines 28-43), so the `raise ValueError` arm of the non-empty
path is unreachable for well-typed configurations.

`produce_densepose_losses` takes the fake-loss path when the proposal list is
empty or when `n_batch = len(i_with_dp) == 0`, where `i_with_dp` is computed
by `_extract_single_tensors_from_matches` (lines 1748-1850): a proposal box
contributes iff its image is non-empty, the image has a `gt_densepose` field,
its `dp_gt` is not `None` and `len(dp_gt.x) > 0`.  An image in the batch is
embedded by its box count, the presence flag of its `gt_densepose` field and
the per-box optional ground-truth point count.

On the fake path every loss is a tensor sum multiplied by zero.  The Python
dict of losses is embedded as an association list in insertion order.  The
claim under verification concerns only which keys the two paths produce and
the fake values, so the point-level loss values computed on the non-empty path
(`uv_loss`, `u_loss`, `v_loss`, `index_uv_loss`, `s_loss`, whose formulas are
embedded separately as `IIDIsotropicGaussianUVLoss.forward`,
`aeqlIndexUvLoss`, etc.) enter this embedding as real-valued parameters; the
keys attached to them on the non-empty path follow the source lines 2305-2352
exactly. -/

inductive DensePoseUVConfidenceType where
  | iid_iso
  | indep_aniso
  deriving DecidableEq

structure DensePoseUVConfidenceConfig where
  enabled : Bool
  type : DensePoseUVConfidenceType
  deriving DecidableEq

/-- A 4-D output tensor: shape and entries. -/
structure Tensor4 where
  n : ℕ
  c : ℕ
  h : ℕ
  w : ℕ
  data : ℕ → ℕ → ℕ → ℕ → ℝ

/-- `Tensor.sum()` over all elements. -/
noncomputable def Tensor4.sum (t : Tensor4) : ℝ :=
  ∑ i in Finset.range t.n, ∑ j in Finset.range t.c, ∑ y in Finset.range t.h,
    ∑ x in Finset.range t.w, t.data i j y x

/-- One image of `proposals_with_gt`, as far as
`_extract_single_tensors_from_matches` is concerned: its proposal-box count,
whether the `gt_densepose` field is present, and for each box the number of
ground-truth points of its densepose target (`none` when the target itself is
`None`). -/
structure GtImage where
  n_boxes : ℕ
  has_gt_densepose : Bool
  dp_npoints : ℕ → Option ℕ

/-- `i_with_dp` of `_extract_single_tensors_from_matches_one_image`: the
global indices of the boxes of one image that carry a non-`None` densepose
target with at least one point. -/
def extractIWithDpImage (img : GtImage) (bbox_global_offset : ℕ) : List ℕ :=
  if img.n_boxes ≠ 0 ∧ img.has_gt_densepose = true then
    ((List.range img.n_boxes).filter fun k =>
      match img.dp_npoints k with
      | some m => 0 < m
      | none => false).map fun k => bbox_global_offset + k
  else []

/-- `i_with_dp_all` accumulated by `_extract_single_tensors_from_matches`
over the images, with `n` the running global box offset (images with no boxes
are skipped). -/
def extractIWithDpAll : List GtImage → ℕ → List ℕ
  | [], _ => []
  | img :: rest, n =>
    if img.n_boxes = 0 then extractIWithDpAll rest n
    else extractIWithDpImage img n ++ extractIWithDpAll rest (n + img.n_boxes)

/-- Embedding of `DensePoseLosses.produce_fake_densepose_losses`. -/
noncomputable def produceFakeDenseposeLosses (segm_trained_by_masks : Bool)
    (uv_confidence : DensePoseUVConfidenceConfig)
    (s index_uv u v sigma_2 kappa_u kappa_v : Tensor4) : List (String × ℝ) :=
  ("loss_densepose_I", index_uv.sum * 0) ::
    ((if segm_trained_by_masks = false then [("loss_densepose_S", s.sum * 0)] else []) ++
      (if uv_confidence.enabled then
        [("loss_densepose_UV", (u.sum + v.sum) * 0 +
          (match uv_confidence.type with
            | DensePoseUVConfidenceType.iid_iso => sigma_2.sum * 0
            | DensePoseUVConfidenceType.indep_aniso =>
                (sigma_2.sum + kappa_u.sum + kappa_v.sum) * 0))]
      else
        [("loss_densepose_U", u.sum * 0), ("loss_densepose_V", v.sum * 0)]))

/-- The loss dictionary built by the non-empty path of
`produce_densepose_losses` (lines 2305-2352), with the point-level loss
values as parameters. -/
noncomputable def produceRealDenseposeLosses (segm_trained_by_masks : Bool)
    (uv_confidence : DensePoseUVConfidenceConfig)
    (uv_loss u_loss v_loss index_uv_loss s_loss : ℝ) : List (String × ℝ) :=
  (if uv_confidence.enabled then
    [("loss_densepose_UV", uv_loss)]
  else
    [("loss_densepose_U", u_loss), ("loss_densepose_V", v_loss)]) ++
    ([("loss_densepose_I", index_uv_loss)] ++
      (if segm_trained_by_masks = false then [("loss_densepose_S", s_loss)] else []))

/-- Embedding of `DensePoseLosses.produce_densepose_losses` at the level of
the returned loss dictionary. -/
noncomputable def produceDenseposeLosses (segm_trained_by_masks : Bool)
    (uv_confidence : DensePoseUVConfidenceConfig)
    (proposals_with_gt : List GtImage)
    (s index_uv u v sigma_2 kappa_u kappa_v : Tensor4)
    (uv_loss u_loss v_loss index_uv_loss s_loss : ℝ) : List (String × ℝ) :=
  if proposals_with_gt.length = 0 then
    produceFakeDenseposeLosses segm_trained_by_masks uv_confidence
      s index_uv u v sigma_2 kappa_u kappa_v
  else if (extractIWithDpAll proposals_with_gt 0).length = 0 then
    produceFakeDenseposeLosses segm_trained_by_masks uv_confidence
      s index_uv u v sigma_2 kappa_u kappa_v
  else
    produceRealDenseposeLosses segm_trained_by_masks uv_confidence
      uv_loss u_loss v_loss index_uv_loss s_loss

/-! ### The AEQL `index_uv` loss of `produce_densepose_losses`
(densepose_head.py, lines 2328-2345) with `exclude_func` and `threshold_func`
(lines 2353-2367)

Python source:
```
J = index_uv_gt.shape[0]
M = torch.max(index_uv_est, dim=1, keepdim=True)[0]
E = self.exclude_func(index_uv_gt, J)
T = self.threshold_func(index_uv_gt, J)
y_t = F.one_hot(index_uv_gt, index_uv_est.shape[1])
prob = torch.softmax(index_uv_est, axis=1).detach()
top_values, top_index = prob.topk(18, dim=1, largest=False, sorted=True)
mi = index_uv_est.gather(1, top_index[torch.arange(J),-1].unsqueeze(-1))
correlation = torch.exp(-(index_uv_est-mi)/(M-mi)).detach()
correlation = correlation.scatter(1, top_index, 1.)
eql_w = 1. - E * T * (1. - y_t)*correlation
x = (index_uv_est-M) - torch.log(torch.sum(eql_w*torch.exp(index_uv_est-M),
    dim=1)).unsqueeze(1).repeat(1, index_uv_est.shape[1])
smooth_loss = -x.mean(dim=-1)
index_uv_loss = torch.sum(F.nll_loss(x, index_uv_gt.long())*0.9
    + smooth_loss*0.1) * self.w_part
```
and
```
def exclude_func(self, gt_classes, J):
    weight = torch.zeros((J), dtype=torch.float).cuda()
    beta = torch.Tensor(weight.shape).cuda().uniform_(0,1)
    weight[beta < 0.99] = 1.
    weight = weight.view(J, 1).expand(J, 25)
    return weight

def threshold_func(self, gt_classes, J):
    weight = torch.zeros(25).cuda()
    freq = [7,8,11,12]
    for f in freq:
        weight[f] = 1
    weight = weight.unsqueeze(0)
    weight = weight.repeat(J, 1)
    return weight
```
`exclude_func` draws a fresh uniform random tensor `beta` on every call; the
draw is made an explicit argument of the embedding.  The channel count is the
literal `25` that `exclude_func` expands to (so `index_uv_est.shape[1] = 25`).
`prob.topk(18, largest=False, sorted=True)` selects the 18 channels of
smallest softmax probability in ascending order; it is embedded through the
ascending rank of a channel (ties broken by channel index, which is
immaterial for distinct probabilities), so that `top_index` is the set of
channels of rank `< 18` and `top_index[:, -1]` is the channel of rank `17`.
`gt_classes` is unused by both helper bodies, exactly as in the source. -/

/-- Embedding of `exclude_func`, with the uniform draw `beta` explicit:
entry `(j, k)` is `1` iff `beta j < 0.99`. -/
noncomputable def exclude_func (beta : ℕ → ℝ) (_gt_classes : ℕ → ℕ) (_J : ℕ) :
    ℕ → ℕ → ℝ :=
  fun j _k => if beta j < 0.99 then 1 else 0

/-- Embedding of `threshold_func`: entry `(j, k)` is `1` iff
`k ∈ freq = [7, 8, 11, 12]`. -/
noncomputable def threshold_func (_gt_classes : ℕ → ℕ) (_J : ℕ) : ℕ → ℕ → ℝ :=
  fun _j k => if k = 7 ∨ k = 8 ∨ k = 11 ∨ k = 12 then 1 else 0

/-- `M = torch.max(index_uv_est, dim=1, keepdim=True)[0]`. -/
noncomputable def maxLogit (index_uv_est : ℕ → ℕ → ℝ) (j : ℕ) : ℝ :=
  (Finset.range 25).sup' (Finset.nonempty_range_iff.mpr (by norm_num)) (index_uv_est j)

/-- `prob = torch.softmax(index_uv_est, axis=1)`. -/
noncomputable def softmaxProb (index_uv_est : ℕ → ℕ → ℝ) (j k : ℕ) : ℝ :=
  Real.exp (index_uv_est j k) / ∑ t in Finset.range 25, Real.exp (index_uv_est j t)

/-- Ascending position of channel `k` in `prob.topk(..., largest=False,
sorted=True)`: the number of channels with smaller probability (ties broken by
channel index). -/
noncomputable def ascRank (index_uv_est : ℕ → ℕ → ℝ) (j k : ℕ) : ℕ :=
  ((Finset.range 25).filter fun t =>
    softmaxProb index_uv_est j t < softmaxProb index_uv_est j k ∨
      (softmaxProb index_uv_est j t = softmaxProb index_uv_est j k ∧ t < k)).card

/-- `mi = index_uv_est.gather(1, top_index[torch.arange(J), -1]...)`: the
logit of the channel of ascending rank `17` (the last, i.e. largest, of the 18
smallest-probability channels).  Ranks are pairwise distinct, so the selecting
sum has exactly one nonzero summand. -/
noncomputable def aeqlMi (index_uv_est : ℕ → ℕ → ℝ) (j : ℕ) : ℝ :=
  ∑ k in Finset.range 25, if ascRank index_uv_est j k = 17 then index_uv_est j k else 0

/-- `correlation = torch.exp(-(index_uv_est-mi)/(M-mi)).scatter(1, top_index, 1.)`:
value `1` on the 18 selected channels, the exponential elsewhere. -/
noncomputable def aeqlCorrelation (index_uv_est : ℕ → ℕ → ℝ) (j k : ℕ) : ℝ :=
  if ascRank index_uv_est j k < 18 then 1
  else Real.exp (-(index_uv_est j k - aeqlMi index_uv_est j) /
    (maxLogit index_uv_est j - aeqlMi index_uv_est j))

/-- `eql_w = 1. - E * T * (1. - y_t) * correlation`, with
`y_t = F.one_hot(index_uv_gt, ...)`. -/
noncomputable def aeqlW (beta : ℕ → ℝ) (index_uv_gt : ℕ → ℕ) (J : ℕ)
    (index_uv_est : ℕ → ℕ → ℝ) (j k : ℕ) : ℝ :=
  1 - exclude_func beta index_uv_gt J j k * threshold_func index_uv_gt J j k *
    (1 - (if k = index_uv_gt j then 1 else 0)) * aeqlCorrelation index_uv_est j k

/-- `x = (index_uv_est - M) - log (Σ_t eql_w * exp(index_uv_est - M))`. -/
noncomputable def aeqlX (beta : ℕ → ℝ) (index_uv_gt : ℕ → ℕ) (J : ℕ)
    (index_uv_est : ℕ → ℕ → ℝ) (j k : ℕ) : ℝ :=
  (index_uv_est j k - maxLogit index_uv_est j) -
    Real.log (∑ t in Finset.range 25, aeqlW beta index_uv_gt J index_uv_est j t *
      Real.exp (index_uv_est j t - maxLogit index_uv_est j))

/-- Embedding of the `loss_densepose_I` value (`index_uv_loss`):
`torch.sum(F.nll_loss(x, gt) * 0.9 + smooth_loss * 0.1) * w_part`, with
`F.nll_loss` under its default mean reduction and
`smooth_loss = -x.mean(dim=-1)`. -/
noncomputable def aeqlIndexUvLoss (beta : ℕ → ℝ) (J : ℕ)
    (index_uv_est : ℕ → ℕ → ℝ) (index_uv_gt : ℕ → ℕ) (w_part : ℝ) : ℝ :=
  let nll := -(∑ j in Finset.range J,
    aeqlX beta index_uv_gt J index_uv_est j (index_uv_gt j)) / (J : ℝ)
  let smooth_loss := fun j =>
    -((∑ k in Finset.range 25, aeqlX beta index_uv_gt J index_uv_est j k) / 25)
  (∑ j in Finset.range J, (nll * 0.9 + smooth_loss j * 0.1)) * w_part

end KTN

namespace KTN

/-- C1: `_extract_at_points_packed` with `block=False` returns, at every point,
exactly the bilinear combination of the four corner values of `z_est` with the
four given weights. -/
theorem extractAtPointsPacked_eq_bilinear (z_est : ℕ → ℕ → ℤ → ℤ → ℚ)
    (index_bbox_valid slice_index_uv : ℕ → ℕ)
    (y_lo y_hi x_lo x_hi : ℕ → ℤ)
    (w_ylo_xlo w_ylo_xhi w_yhi_xlo w_yhi_xhi : ℕ → ℚ) (p : ℕ) :
    extractAtPointsPacked z_est index_bbox_valid slice_index_uv y_lo y_hi x_lo x_hi
        w_ylo_xlo w_ylo_xhi w_yhi_xlo w_yhi_xhi p =
      z_est (index_bbox_valid p) (slice_index_uv p) (y_lo p) (x_lo p) * w_ylo_xlo p
        + z_est (index_bbox_valid p) (slice_index_uv p) (y_lo p) (x_hi p) * w_ylo_xhi p
        + z_est (index_bbox_valid p) (slice_index_uv p) (y_hi p) (x_lo p) * w_yhi_xlo p
        + z_est (index_bbox_valid p) (slice_index_uv p) (y_hi p) (x_hi p) * w_yhi_xhi p := rfl

/-- C2: for `size_z ≥ 1` the indices `v_lo`, `v_hi` returned by
`_linear_interpolation_utilities` satisfy `0 ≤ v_lo ≤ v_hi ≤ size_z - 1`,
so four-corner indexing of a tensor of spatial extent `size_z` stays in bounds. -/
theorem linearInterpolationUtilities_indices_in_bounds
    (v_norm v0_src size_src v0_dst size_dst : ℚ) (size_z : ℤ)
    (hz : 1 ≤ size_z) (_hdst : 0 < size_dst) :
    0 ≤ (linearInterpolationUtilities v_norm v0_src size_src v0_dst size_dst size_z).v_lo ∧
      (linearInterpolationUtilities v_norm v0_src size_src v0_dst size_dst size_z).v_lo ≤
        size_z - 1 ∧
      0 ≤ (linearInterpolationUtilities v_norm v0_src size_src v0_dst size_dst size_z).v_hi ∧
      (linearInterpolationUtilities v_norm v0_src size_src v0_dst size_dst size_z).v_hi ≤
        size_z - 1 ∧
      (linearInterpolationUtilities v_norm v0_src size_src v0_dst size_dst size_z).v_lo ≤
        (linearInterpolationUtilities v_norm v0_src size_src v0_dst size_dst size_z).v_hi := by
  set r := linearInterpolationUtilities v_norm v0_src size_src v0_dst size_dst size_z with hr
  have h0 : (0:ℤ) ≤ size_z - 1 := by omega
  have hlo_def : r.v_lo = min (max ⌊(v0_src + v_norm * size_src / 256 - v0_dst) *
      (size_z : ℚ) / size_dst⌋ 0) (size_z - 1) := rfl
  have hhi_def : r.v_hi = min (r.v_lo + 1) (size_z - 1) := rfl
  constructor
  · rw [hlo_def]
    exact le_min (le_max_right _ _) h0
  refine ⟨?_, ?_, ?_, ?_⟩
  · rw [hlo_def]; exact min_le_right _ _
  · rw [hhi_def]
    have : (0:ℤ) ≤ min (max ⌊(v0_src + v_norm * size_src / 256 - v0_dst) *
        (size_z : ℚ) / size_dst⌋ 0) (size_z - 1) := le_min (le_max_right _ _) h0
    rw [hlo_def]
    exact le_min (by omega) h0
  · rw [hhi_def]; exact min_le_right _ _
  · rw [hhi_def]
    refine le_min (by omega) ?_
    rw [hlo_def]; exact min_le_right _ _

/-- Helper: the interpolation weight `v_w` never exceeds `1`. -/
theorem linearInterpolationUtilities_vw_le_one
    (v_norm v0_src size_src v0_dst size_dst : ℚ) (size_z : ℤ) :
    (linearInterpolationUtilities v_norm v0_src size_src v0_dst size_dst size_z).v_w ≤ 1 := by
  unfold linearInterpolationUtilities
  simp only
  set vg := (v0_src + v_norm * size_src / 256 - v0_dst) * (size_z : ℚ) / size_dst with hvg
  set lo := min (max ⌊vg⌋ 0) (size_z - 1) with hlo
  have hhi : min (lo + 1) (size_z - 1) ≤ lo + 1 := min_le_left _ _
  have h1 : min ((min (lo + 1) (size_z - 1) : ℤ) : ℚ) vg ≤ ((min (lo + 1) (size_z - 1) : ℤ) : ℚ) :=
    min_le_left _ _
  have h2 : ((min (lo + 1) (size_z - 1) : ℤ) : ℚ) ≤ (lo : ℚ) + 1 := by
    exact_mod_cast hhi
  linarith

/-- Helper: for a point flagged valid and a nonnegative interval size,
the interpolation weight `v_w` is nonnegative. -/
theorem linearInterpolationUtilities_vw_nonneg
    (v_norm v0_src size_src v0_dst size_dst : ℚ) (size_z : ℤ) (hz : 0 ≤ size_z)
    (hvalid : (linearInterpolationUtilities v_norm v0_src size_src v0_dst size_dst
      size_z).j_valid = true) :
    0 ≤ (linearInterpolationUtilities v_norm v0_src size_src v0_dst size_dst size_z).v_w := by
  have hd : 0 ≤ v0_src + v_norm * size_src / 256 - v0_dst ∧
      v0_src + v_norm * size_src / 256 - v0_dst < size_dst := by
    have := hvalid
    unfold linearInterpolationUtilities at this
    simpa using this
  obtain ⟨hd0, hd1⟩ := hd
  have hdst : 0 < size_dst := lt_of_le_of_lt hd0 hd1
  unfold linearInterpolationUtilities
  simp only
  set d := v0_src + v_norm * size_src / 256 - v0_dst with hdd
  set vg := d * (size_z : ℚ) / size_dst with hvg
  rcases lt_or_le 0 size_z with hpos | hnonpos
  · -- size_z ≥ 1 : the floor of v_grid lies in [0, size_z - 1]
    have hzq : (0:ℚ) < (size_z : ℚ) := by exact_mod_cast hpos
    have hvg0 : 0 ≤ vg := by
      rw [hvg]
      positivity
    have hvglt : vg < (size_z : ℚ) := by
      rw [hvg, div_lt_iff hdst]
      calc d * (size_z : ℚ) < size_dst * (size_z : ℚ) := by
            exact mul_lt_mul_of_pos_right hd1 hzq
        _ = (size_z : ℚ) * size_dst := by ring
    have hfl0 : 0 ≤ ⌊vg⌋ := Int.le_floor.mpr (by exact_mod_cast hvg0)
    have hflle : ⌊vg⌋ ≤ size_z - 1 := by
      have : ⌊vg⌋ < size_z := Int.floor_lt.mpr (by exact_mod_cast hvglt)
      omega
    have hlo_eq : min (max ⌊vg⌋ 0) (size_z - 1) = ⌊vg⌋ := by
      rw [max_eq_left hfl0, min_eq_left hflle]
    rw [hlo_eq]
    have hhi_ge : (⌊vg⌋ : ℤ) ≤ min (⌊vg⌋ + 1) (size_z - 1) := le_min (by omega) hflle
    have h1 : (⌊vg⌋ : ℚ) ≤ ((min (⌊vg⌋ + 1) (size_z - 1) : ℤ) : ℚ) := by exact_mod_cast hhi_ge
    have h2 : (⌊vg⌋ : ℚ) ≤ vg := Int.floor_le vg
    have : (⌊vg⌋ : ℚ) ≤ min ((min (⌊vg⌋ + 1) (size_z - 1) : ℤ) : ℚ) vg := le_min h1 h2
    linarith
  · -- size_z ≤ 0 : the clamps collapse and the weight is 0
    interval_cases size_z
    have hlo_eq : min (max ⌊vg⌋ 0) (0 - 1 : ℤ) = -1 := by
      have : (0:ℤ) ≤ max ⌊vg⌋ 0 := le_max_right _ _
      omega
    have hvg_eq : vg = 0 := by
      rw [hvg]; push_cast; ring
    rw [hlo_eq, hvg_eq]
    norm_num

/-- C3: the four bilinear weights produced by `_grid_sampling_utilities` always
sum to `1`, and for every point flagged valid each of them lies in `[0, 1]`. -/
theorem gridSamplingUtilities_weights_convex (zh zw : ℕ)
    (bbox_xywh_est bbox_xywh_gt : ℕ → BoxXYWH)
    (x_norm y_norm : ℕ → ℚ) (index_bbox : ℕ → ℕ) (p : ℕ) :
    let g := gridSamplingUtilities zh zw bbox_xywh_est bbox_xywh_gt x_norm y_norm index_bbox p
    g.w_ylo_xlo + g.w_ylo_xhi + g.w_yhi_xlo + g.w_yhi_xhi = 1 ∧
      (g.j_valid = true →
        (0 ≤ g.w_ylo_xlo ∧ g.w_ylo_xlo ≤ 1) ∧ (0 ≤ g.w_ylo_xhi ∧ g.w_ylo_xhi ≤ 1) ∧
        (0 ≤ g.w_yhi_xlo ∧ g.w_yhi_xlo ≤ 1) ∧ (0 ≤ g.w_yhi_xhi ∧ g.w_yhi_xhi ≤ 1)) := by
  intro g
  have hgdef : g = gridSamplingUtilities zh zw bbox_xywh_est bbox_xywh_gt x_norm y_norm
      index_bbox p := rfl
  set bgt := bbox_xywh_gt (index_bbox p) with hbgt
  set best := bbox_xywh_est (index_bbox p) with hbest
  set X := linearInterpolationUtilities (x_norm p) bgt.x0 bgt.w best.x0 best.w (zw : ℤ) with hX
  set Y := linearInterpolationUtilities (y_norm p) bgt.y0 bgt.h best.y0 best.h (zh : ℤ) with hY
  have hw1 : g.w_ylo_xlo = (1 - X.v_w) * (1 - Y.v_w) := rfl
  have hw2 : g.w_ylo_xhi = X.v_w * (1 - Y.v_w) := rfl
  have hw3 : g.w_yhi_xlo = (1 - X.v_w) * Y.v_w := rfl
  have hw4 : g.w_yhi_xhi = X.v_w * Y.v_w := rfl
  have hjv : g.j_valid = (X.j_valid && Y.j_valid) := rfl
  constructor
  · rw [hw1, hw2, hw3, hw4]; ring
  · intro hvalid
    rw [hjv] at hvalid
    have hXv : X.j_valid = true := by
      rcases Bool.and_eq_true_iff.mp hvalid with ⟨h, _⟩; exact h
    have hYv : Y.j_valid = true := by
      rcases Bool.and_eq_true_iff.mp hvalid with ⟨_, h⟩; exact h
    have hX0 : 0 ≤ X.v_w :=
      linearInterpolationUtilities_vw_nonneg _ _ _ _ _ _ (by positivity) hXv
    have hX1 : X.v_w ≤ 1 := linearInterpolationUtilities_vw_le_one _ _ _ _ _ _
    have hY0 : 0 ≤ Y.v_w :=
      linearInterpolationUtilities_vw_nonneg _ _ _ _ _ _ (by positivity) hYv
    have hY1 : Y.v_w ≤ 1 := linearInterpolationUtilities_vw_le_one _ _ _ _ _ _
    rw [hw1, hw2, hw3, hw4]
    refine ⟨⟨?_, ?_⟩, ⟨?_, ?_⟩, ⟨?_, ?_⟩, ⟨?_, ?_⟩⟩ <;> nlinarith

/-- Closed-form witness for `gridSamplingUtilities_weights_convex` at a
concrete valid point. -/
theorem gridSamplingUtilities_weights_convex_witness :
    ((gridSamplingUtilities 4 4 (fun _ => ⟨0, 0, 10, 10⟩) (fun _ => ⟨0, 0, 10, 10⟩)
        (fun _ => 128) (fun _ => 128) id 0).j_valid = true) ∧
      (let g := gridSamplingUtilities 4 4 (fun _ => ⟨0, 0, 10, 10⟩) (fun _ => ⟨0, 0, 10, 10⟩)
          (fun _ => 128) (fun _ => 128) id 0
       g.w_ylo_xlo + g.w_ylo_xhi + g.w_yhi_xlo + g.w_yhi_xhi = 1 ∧
        (g.j_valid = true →
          (0 ≤ g.w_ylo_xlo ∧ g.w_ylo_xlo ≤ 1) ∧ (0 ≤ g.w_ylo_xhi ∧ g.w_ylo_xhi ≤ 1) ∧
          (0 ≤ g.w_yhi_xlo ∧ g.w_yhi_xlo ≤ 1) ∧ (0 ≤ g.w_yhi_xhi ∧ g.w_yhi_xhi ≤ 1))) :=
  ⟨by norm_num [gridSamplingUtilities, linearInterpolationUtilities],
    gridSamplingUtilities_weights_convex 4 4 (fun _ => ⟨0, 0, 10, 10⟩)
      (fun _ => ⟨0, 0, 10, 10⟩) (fun _ => 128) (fun _ => 128) id 0⟩

/-- Closed-form witness for `linearInterpolationUtilities_indices_in_bounds`
at a concrete input. -/
theorem linearInterpolationUtilities_indices_in_bounds_witness :
    (1:ℤ) ≤ 4 ∧ (0:ℚ) < 10 ∧
      (0 ≤ (linearInterpolationUtilities 128 0 10 0 10 4).v_lo ∧
        (linearInterpolationUtilities 128 0 10 0 10 4).v_lo ≤ 4 - 1 ∧
        0 ≤ (linearInterpolationUtilities 128 0 10 0 10 4).v_hi ∧
        (linearInterpolationUtilities 128 0 10 0 10 4).v_hi ≤ 4 - 1 ∧
        (linearInterpolationUtilities 128 0 10 0 10 4).v_lo ≤
          (linearInterpolationUtilities 128 0 10 0 10 4).v_hi) :=
  ⟨by decide, by norm_num,
    linearInterpolationUtilities_indices_in_bounds 128 0 10 0 10 4 (by decide) (by norm_num)⟩

/-- Helper: `softplus` is nonnegative. -/
theorem softplus_nonneg (x : ℝ) : 0 ≤ softplus x := by
  unfold softplus
  have hx : 0 < Real.exp x := Real.exp_pos x
  have : (1:ℝ) ≤ 1 + Real.exp x := by linarith
  exact Real.log_nonneg this

/-- C4: `IIDIsotropicGaussianUVLoss.forward` returns the sum over all points of
`0.5 * (log 2π + 2 log σ²ᵢ + δᵢ² / σ²ᵢ)` with `σ²ᵢ = softplus(sigma_uᵢ) + ε`
and `δᵢ² = (uᵢ - target_uᵢ)² + (vᵢ - target_vᵢ)²`; moreover `σ²ᵢ ≥ ε > 0` at
every point (so the division and logarithm are well defined), and enlarging
`σ²ᵢ` can only decrease the squared-residual term `δᵢ²/σ²ᵢ`. -/
theorem IIDIsotropicGaussianUVLoss_forward_spec (slb : ℝ) (hslb : 0 < slb)
    (n : ℕ) (u v sigma_u target_u target_v : ℕ → ℝ) :
    (IIDIsotropicGaussianUVLoss.mk slb).forward n u v sigma_u target_u target_v =
      (∑ i in Finset.range n,
        0.5 * (log2pi + 2 * Real.log (softplus (sigma_u i) + slb) +
          ((u i - target_u i) ^ 2 + (v i - target_v i) ^ 2) / (softplus (sigma_u i) + slb))) ∧
    (∀ i, slb ≤ softplus (sigma_u i) + slb ∧ 0 < softplus (sigma_u i) + slb) ∧
    (∀ i s2, softplus (sigma_u i) + slb ≤ s2 →
      ((u i - target_u i) ^ 2 + (v i - target_v i) ^ 2) / s2 ≤
        ((u i - target_u i) ^ 2 + (v i - target_v i) ^ 2) / (softplus (sigma_u i) + slb)) := by
  refine ⟨rfl, fun i => ⟨?_, ?_⟩, fun i s2 hs2 => ?_⟩
  · have := softplus_nonneg (sigma_u i); linarith
  · have := softplus_nonneg (sigma_u i); linarith
  · have hpos : 0 < softplus (sigma_u i) + slb := by
      have := softplus_nonneg (sigma_u i); linarith
    have hnum : 0 ≤ (u i - target_u i) ^ 2 + (v i - target_v i) ^ 2 := by positivity
    exact div_le_div_of_nonneg_left hnum hpos hs2

/-- Closed-form witness for `IIDIsotropicGaussianUVLoss_forward_spec` at a
concrete input. -/
theorem IIDIsotropicGaussianUVLoss_forward_spec_witness :
    (0:ℝ) < 1 ∧
      ((IIDIsotropicGaussianUVLoss.mk 1).forward 0 (fun _ => 0) (fun _ => 0) (fun _ => 0)
          (fun _ => 0) (fun _ => 0) =
        (∑ _i in Finset.range 0,
          0.5 * (log2pi + 2 * Real.log (softplus 0 + 1) +
            ((0 - 0 : ℝ) ^ 2 + (0 - 0 : ℝ) ^ 2) / (softplus 0 + 1))) ∧
      (∀ _i : ℕ, (1:ℝ) ≤ softplus 0 + 1 ∧ (0:ℝ) < softplus 0 + 1) ∧
      (∀ (_i : ℕ) (s2 : ℝ), softplus 0 + 1 ≤ s2 →
        ((0 - 0 : ℝ) ^ 2 + (0 - 0 : ℝ) ^ 2) / s2 ≤
          ((0 - 0 : ℝ) ^ 2 + (0 - 0 : ℝ) ^ 2) / (softplus 0 + 1))) :=
  ⟨by norm_num,
    IIDIsotropicGaussianUVLoss_forward_spec 1 (by norm_num) 0 (fun _ => 0) (fun _ => 0)
      (fun _ => 0) (fun _ => 0) (fun _ => 0)⟩

/-- Helper: `denseposeInference` produces one output per detection. -/
theorem denseposeInference_length {α : Type} (s index_uv u v : ℕ → α)
    (k : ℕ) (counts : List ℕ) :
    (denseposeInference s index_uv u v k counts).length = counts.length := by
  induction counts generalizing k with
  | nil => rfl
  | cons n rest ih => simp [denseposeInference, ih]

/-- Helper: prefix sums of instance counts are monotone. -/
theorem sliceStart_mono (counts : List ℕ) {a b : ℕ} (hab : a ≤ b) :
    sliceStart counts a ≤ sliceStart counts b := by
  unfold sliceStart
  have hb : b = a + (b - a) := by omega
  rw [hb, List.take_add, List.sum_append]
  omega

/-- Helper: the slice of detection `j + 1` starts where the slice of
detection `j` ends. -/
theorem sliceStart_succ (counts : List ℕ) (j : ℕ) (hj : j < counts.length) :
    sliceStart counts (j + 1) = sliceStart counts j + counts.get ⟨j, hj⟩ := by
  unfold sliceStart
  rw [List.take_succ, List.sum_append]
  simp [List.getElem?_eq_getElem hj]

/-- Helper: the output assigned to detection `j` is built from the rows of
each tensor starting at offset `k + sliceStart counts j`. -/
theorem denseposeInference_get {α : Type} (s index_uv u v : ℕ → α)
    (counts : List ℕ) (k j : ℕ) (hj : j < counts.length) :
    (denseposeInference s index_uv u v k counts).get
        ⟨j, by rw [denseposeInference_length]; exact hj⟩ =
      { s := fun r => s (k + sliceStart counts j + r)
        index_uv := fun r => index_uv (k + sliceStart counts j + r)
        u := fun r => u (k + sliceStart counts j + r)
        v := fun r => v (k + sliceStart counts j + r)
        n := counts.get ⟨j, hj⟩ } := by
  induction counts generalizing k j with
  | nil => exact absurd hj (by simp)
  | cons n rest ih =>
    cases j with
    | zero =>
      show ({ s := fun r => s (k + r), index_uv := fun r => index_uv (k + r),
              u := fun r => u (k + r), v := fun r => v (k + r),
              n := n } : DensePoseOutputSlice α) = _
      ext r <;> simp [sliceStart]
    | succ j' =>
      have hj' : j' < rest.length := by simpa using hj
      have := ih (k + n) j' hj'
      show (denseposeInference s index_uv u v (k + n) rest).get
          ⟨j', by rw [denseposeInference_length]; exact hj'⟩ = _
      rw [this]
      have hss : sliceStart (n :: rest) (j' + 1) = n + sliceStart rest j' := by
        unfold sliceStart
        simp [List.take_succ_cons]
      ext r <;> simp [hss] <;> ring_nf

/-- Helper: every row index below the total count falls in some detection's
slice. -/
theorem sliceStart_cover (counts : List ℕ) (r : ℕ) (hr : r < counts.sum) :
    ∃ j, ∃ hj : j < counts.length,
      sliceStart counts j ≤ r ∧ r < sliceStart counts j + counts.get ⟨j, hj⟩ := by
  induction counts generalizing r with
  | nil => simp at hr
  | cons n rest ih =>
    rcases lt_or_le r n with hlt | hge
    · exact ⟨0, by simp, by simp [sliceStart], by simpa [sliceStart] using hlt⟩
    · have hr' : r - n < rest.sum := by
        have : (n :: rest).sum = n + rest.sum := by simp
        omega
      obtain ⟨j', hj', h1, h2⟩ := ih (r - n) hr'
      refine ⟨j' + 1, by simpa using hj', ?_, ?_⟩
      · have hss : sliceStart (n :: rest) (j' + 1) = n + sliceStart rest j' := by
          unfold sliceStart; simp [List.take_succ_cons]
        omega
      · have hss : sliceStart (n :: rest) (j' + 1) = n + sliceStart rest j' := by
          unfold sliceStart; simp [List.take_succ_cons]
        have hget : (n :: rest).get ⟨j' + 1, by simpa using hj'⟩ = rest.get ⟨j', hj'⟩ := rfl
        omega

/-- C8: `densepose_inference` assigns to detection `j` a `pred_densepose`
built from exactly the rows `[k_j, k_j + n_j)` of each output tensor, where
`k_j` is the sum of the counts of all earlier detections; those slices are
consecutive, pairwise disjoint and, when the counts sum to the batch size `N`,
they cover all `N` rows. -/
theorem denseposeInference_partitions {α : Type} (s index_uv u v : ℕ → α)
    (counts : List ℕ) (N : ℕ) (hsum : counts.sum = N) :
    (∀ j, ∀ hj : j < counts.length,
      (denseposeInference s index_uv u v 0 counts).get
          ⟨j, by rw [denseposeInference_length]; exact hj⟩ =
        { s := fun r => s (sliceStart counts j + r)
          index_uv := fun r => index_uv (sliceStart counts j + r)
          u := fun r => u (sliceStart counts j + r)
          v := fun r => v (sliceStart counts j + r)
          n := counts.get ⟨j, hj⟩ }) ∧
    (∀ j, ∀ hj : j < counts.length,
      sliceStart counts (j + 1) = sliceStart counts j + counts.get ⟨j, hj⟩) ∧
    (∀ i j, ∀ hi : i < counts.length, i < j →
      sliceStart counts i + counts.get ⟨i, hi⟩ ≤ sliceStart counts j) ∧
    (∀ r, r < N → ∃ j, ∃ hj : j < counts.length,
      sliceStart counts j ≤ r ∧ r < sliceStart counts j + counts.get ⟨j, hj⟩) := by
  refine ⟨?_, ?_, ?_, ?_⟩
  · intro j hj
    have := denseposeInference_get s index_uv u v counts 0 j hj
    rw [this]
    ext r <;> simp
  · exact fun j hj => sliceStart_succ counts j hj
  · intro i j hi hij
    have h1 : sliceStart counts (i + 1) = sliceStart counts i + counts.get ⟨i, hi⟩ :=
      sliceStart_succ counts i hi
    have h2 : sliceStart counts (i + 1) ≤ sliceStart counts j := sliceStart_mono counts hij
    omega
  · intro r hr
    exact sliceStart_cover counts r (by omega)

/-- Closed-form witness for `denseposeInference_partitions` at concrete counts. -/
theorem denseposeInference_partitions_witness :
    (([2, 1, 3] : List ℕ).sum = 6) ∧
      ((∀ j, ∀ hj : j < ([2, 1, 3] : List ℕ).length,
        (denseposeInference id id id id 0 [2, 1, 3]).get
            ⟨j, by rw [denseposeInference_length]; exact hj⟩ =
          { s := fun r => sliceStart [2, 1, 3] j + r
            index_uv := fun r => sliceStart [2, 1, 3] j + r
            u := fun r => sliceStart [2, 1, 3] j + r
            v := fun r => sliceStart [2, 1, 3] j + r
            n := ([2, 1, 3] : List ℕ).get ⟨j, hj⟩ }) ∧
      (∀ j, ∀ hj : j < ([2, 1, 3] : List ℕ).length,
        sliceStart [2, 1, 3] (j + 1) =
          sliceStart [2, 1, 3] j + ([2, 1, 3] : List ℕ).get ⟨j, hj⟩) ∧
      (∀ i j, ∀ hi : i < ([2, 1, 3] : List ℕ).length, i < j →
        sliceStart [2, 1, 3] i + ([2, 1, 3] : List ℕ).get ⟨i, hi⟩ ≤
          sliceStart [2, 1, 3] j) ∧
      (∀ r, r < 6 → ∃ j, ∃ hj : j < ([2, 1, 3] : List ℕ).length,
        sliceStart [2, 1, 3] j ≤ r ∧
          r < sliceStart [2, 1, 3] j + ([2, 1, 3] : List ℕ).get ⟨j, hj⟩)) :=
  ⟨by decide, denseposeInference_partitions id id id id [2, 1, 3] 6 (by decide)⟩

/-- C9: `DensePoseDataFilter.__call__` returns the features unchanged, and in
every kept image the gt-box and proposal-box columns have equal length, every
kept proposal has IoU strictly above the threshold, and every kept proposal
carries a present densepose target or, when `keep_masks` is set, a present
mask target (a field absent on the `Instances` object counts as `None`). -/
theorem densePoseDataFilter_call_spec {Box DP Mask F : Type}
    (self : DensePoseDataFilter) (iou : Box → Box → ℚ) (features : F)
    (proposals_with_targets : List (ImageProposals Box DP Mask)) :
    (self.call iou features proposals_with_targets).1 = features ∧
    ∀ img ∈ (self.call iou features proposals_with_targets).2,
      (img.rows.map PropRow.gt_box).length = (img.rows.map PropRow.proposal_box).length ∧
      ∀ r ∈ img.rows,
        self.iou_threshold < iou r.gt_box r.proposal_box ∧
        ((img.has_gt_densepose = true ∧ r.dp.isSome = true) ∨
          (self.keep_masks = true ∧ img.has_gt_masks = true ∧ r.mask.isSome = true)) := by
  refine ⟨rfl, ?_⟩
  intro img hmem
  obtain ⟨img0, _hmem0, hsome⟩ := List.mem_filterMap.mp hmem
  unfold DensePoseDataFilter.filterImage at hsome
  by_cases hskip : img0.has_gt_densepose = false ∧
      (img0.has_gt_masks = false ∨ self.keep_masks = false)
  · rw [if_pos hskip] at hsome; exact absurd hsome (by simp)
  · rw [if_neg hskip] at hsome
    have himg : img.rows = (img0.rows.filter fun r =>
        decide (self.iou_threshold < iou r.gt_box r.proposal_box)).filter fun r =>
          (if img0.has_gt_densepose then r.dp else none).isSome
            || (if self.keep_masks && img0.has_gt_masks then r.mask else none).isSome := by
      have := Option.some.inj hsome
      rw [← this]
    have hdp : img.has_gt_densepose = img0.has_gt_densepose := by
      have := Option.some.inj hsome
      rw [← this]
    have hmask : img.has_gt_masks = img0.has_gt_masks := by
      have := Option.some.inj hsome
      rw [← this]
    refine ⟨by simp, ?_⟩
    intro r hr
    rw [himg] at hr
    have h2 := List.mem_filter.mp hr
    have h1 := List.mem_filter.mp h2.1
    refine ⟨by simpa using h1.2, ?_⟩
    have hsel := h2.2
    rcases Bool.or_eq_true_iff.mp hsel with hdp' | hmask'
    · left
      by_cases hhas : img0.has_gt_densepose = true
      · rw [if_pos hhas] at hdp'
        exact ⟨by rw [hdp, hhas], hdp'⟩
      · rw [Bool.not_eq_true] at hhas
        rw [if_neg (by simp [hhas])] at hdp'
        exact absurd hdp' (by simp)
    · right
      by_cases hhas : (self.keep_masks && img0.has_gt_masks) = true
      · rw [if_pos hhas] at hmask'
        rcases Bool.and_eq_true_iff.mp hhas with ⟨hk, hm⟩
        exact ⟨hk, by rw [hmask, hm], hmask'⟩
      · rw [if_neg (by simpa using hhas)] at hmask'
        exact absurd hmask' (by simp)

/-- Closed-form witness for `densePoseDataFilter_call_spec` at a concrete
input: one image whose single proposal carries a densepose target. -/
theorem densePoseDataFilter_call_spec_witness :
    ((DensePoseDataFilter.mk 0 false).call (fun _ _ => (1:ℚ)) (37 : ℕ)
        [ImageProposals.mk [PropRow.mk (0:ℕ) (0:ℕ) (some (5:ℕ)) (none : Option ℕ)]
          true false] =
      ((37 : ℕ),
        [ImageProposals.mk [PropRow.mk (0:ℕ) (0:ℕ) (some (5:ℕ)) (none : Option ℕ)]
          true false])) ∧
      (((DensePoseDataFilter.mk 0 false).call (fun _ _ => (1:ℚ)) (37 : ℕ)
          [ImageProposals.mk [PropRow.mk (0:ℕ) (0:ℕ) (some (5:ℕ)) (none : Option ℕ)]
            true false]).1 = (37 : ℕ) ∧
        ∀ img ∈ ((DensePoseDataFilter.mk 0 false).call (fun _ _ => (1:ℚ)) (37 : ℕ)
            [ImageProposals.mk [PropRow.mk (0:ℕ) (0:ℕ) (some (5:ℕ)) (none : Option ℕ)]
              true false]).2,
          (img.rows.map PropRow.gt_box).length =
              (img.rows.map PropRow.proposal_box).length ∧
          ∀ r ∈ img.rows,
            (DensePoseDataFilter.mk 0 false).iou_threshold <
                (fun _ _ => (1:ℚ)) r.gt_box r.proposal_box ∧
            ((img.has_gt_densepose = true ∧ r.dp.isSome = true) ∨
              ((DensePoseDataFilter.mk 0 false).keep_masks = true ∧
                img.has_gt_masks = true ∧ r.mask.isSome = true))) :=
  ⟨by norm_num [DensePoseDataFilter.call, DensePoseDataFilter.filterImage,
      List.filterMap_cons, List.filter],
    densePoseDataFilter_call_spec (DensePoseDataFilter.mk 0 false) (fun _ _ => (1:ℚ)) (37 : ℕ)
      [ImageProposals.mk [PropRow.mk (0:ℕ) (0:ℕ) (some (5:ℕ)) (none : Option ℕ)] true false]⟩

/-- Helper: no image contributes iff every per-image instance list is empty. -/
theorem kptContributing_eq_nil_iff (instances : List KeypointImage) :
    kptContributing instances = [] ↔ ∀ im ∈ instances, im.n_instances = 0 := by
  unfold kptContributing
  rw [List.filter_eq_nil]
  simp

/-- Helper: no row is selected iff no keypoint in the batch is marked valid. -/
theorem kptValidRows_eq_nil_iff (instances : List KeypointImage) :
    kptValidRows instances = [] ↔ ∀ pr ∈ kptPairs instances, pr.2 = false := by
  unfold kptValidRows
  rw [List.filter_eq_nil]
  constructor
  · intro h pr hpr
    have hpr2 : pr ∈ (kptPairs instances).enum.map Prod.snd := by
      rw [List.enum_map_snd]; exact hpr
    obtain ⟨x, hx, hxeq⟩ := List.mem_map.mp hpr2
    have := h x hx
    rw [← hxeq]
    simpa using this
  · intro h x hx
    have hx2 : x.2 ∈ kptPairs instances := by
      rw [← List.enum_map_snd (kptPairs instances)]
      exact List.mem_map_of_mem Prod.snd hx
    have := h x.2 hx2
    simp [this]

/-- C10: `dp_keypoint_rcnn_loss` returns exactly zero whenever every per-image
instance list is empty or no keypoint in the batch is marked valid; otherwise
it returns the sum of cross-entropy over the valid keypoints divided by the
normalizer, and with `normalizer = None` it divides by the number of valid
keypoints in the minibatch. -/
theorem dpKeypointRcnnLoss_spec (logits : ℕ → ℕ → ℝ) (NK HW : ℕ)
    (instances : List KeypointImage) (normalizer : Option ℝ) :
    ((∀ im ∈ instances, im.n_instances = 0) ∨ (∀ pr ∈ kptPairs instances, pr.2 = false) →
      dpKeypointRcnnLoss logits NK HW instances normalizer = 0) ∧
    (¬((∀ im ∈ instances, im.n_instances = 0) ∨ (∀ pr ∈ kptPairs instances, pr.2 = false)) →
      dpKeypointRcnnLoss logits NK HW instances normalizer =
        ((kptValidRows instances).map fun p => crossEntropyRow logits HW p.1 p.2.1).sum /
          (match normalizer with
            | some nrm => nrm
            | none => ((kptValidRows instances).length : ℝ)) ∧
      (normalizer = none →
        dpKeypointRcnnLoss logits NK HW instances normalizer =
          ((kptValidRows instances).map fun p => crossEntropyRow logits HW p.1 p.2.1).sum /
            ((kptValidRows instances).length : ℝ))) := by
  constructor
  · intro hcond
    have hsplit : kptContributing instances = [] ∨ kptValidRows instances = [] := by
      rcases hcond with h | h
      · exact Or.inl ((kptContributing_eq_nil_iff instances).mpr h)
      · exact Or.inr ((kptValidRows_eq_nil_iff instances).mpr h)
    unfold dpKeypointRcnnLoss
    rw [if_pos hsplit, mul_zero]
  · intro hcond
    have hsplit : ¬(kptContributing instances = [] ∨ kptValidRows instances = []) := by
      intro hor
      apply hcond
      rcases hor with h | h
      · exact Or.inl ((kptContributing_eq_nil_iff instances).mp h)
      · exact Or.inr ((kptValidRows_eq_nil_iff instances).mp h)
    constructor
    · unfold dpKeypointRcnnLoss
      rw [if_neg hsplit]
    · intro hnorm
      subst hnorm
      unfold dpKeypointRcnnLoss
      rw [if_neg hsplit]

/-- Closed-form witness for `dpKeypointRcnnLoss_spec` on a batch with one
image, one instance and one valid keypoint. -/
theorem dpKeypointRcnnLoss_spec_witness :
    (¬((∀ im ∈ [KeypointImage.mk 1 [(2, true)]], im.n_instances = 0) ∨
        (∀ pr ∈ kptPairs [KeypointImage.mk 1 [(2, true)]], pr.2 = false))) ∧
      dpKeypointRcnnLoss (fun _ _ => 0) 1 3 [KeypointImage.mk 1 [(2, true)]] none =
        ((kptValidRows [KeypointImage.mk 1 [(2, true)]]).map
            fun p => crossEntropyRow (fun _ _ => 0) 3 p.1 p.2.1).sum /
          ((kptValidRows [KeypointImage.mk 1 [(2, true)]]).length : ℝ) := by
  have hnc : ¬((∀ im ∈ [KeypointImage.mk 1 [(2, true)]], im.n_instances = 0) ∨
      (∀ pr ∈ kptPairs [KeypointImage.mk 1 [(2, true)]], pr.2 = false)) := by
    decide
  exact ⟨hnc,
    ((dpKeypointRcnnLoss_spec (fun _ _ => 0) 1 3 [KeypointImage.mk 1 [(2, true)]] none).2
      hnc).2 rfl⟩

/-- The property claimed of `cascade_generate_surface_weights` and its use in
`forward`: the generated kernel entry at `(i, s, y, x)` is the
`parameter_transformer` applied to the `dim=1` concatenation of the three
learned linear transfers, read back through the final reshape/permute; the
concatenation places the keypoint, bbox and part transfer results in their
three column segments; and `forward` uses the generated kernel as the
transposed-convolution kernel producing `index_uv_from_all_lowres`. -/
def CascadeSurfaceWeightsSpec (P : DensePoseKTNv2PredictorV3) (bbox_weight : ℕ → ℕ → ℚ)
    (head_outputs : ℕ → ℕ → ℕ → ℕ → ℚ) (H W i s y x : ℕ) : Prop :=
  let from_kpt := matmul P.kpt_n_out P.kpt_surface_transfer_matrix
    (permuteFlatten P.kpt_h P.kpt_w P.body_kpt_weight)
  let from_box := matmul 6 P.bbox_surface_transfer_matrix bbox_weight
  let from_part := matmul P.dim_out_ann_index P.part_surface_transfer_matrix
    (permuteFlatten P.kernel_size P.kernel_size P.ann_index_lowres_weight)
  let syn := cat3 (P.kpt_n_in * P.kpt_h * P.kpt_w) P.bbox_weight_size
    from_kpt from_box from_part
  (P.cascade_generate_surface_weights bbox_weight i s y x =
    P.parameter_transformer syn s
      (i * (P.kernel_size * P.kernel_size) + y * P.kernel_size + x)) ∧
  (∀ r c, c < P.kpt_n_in * P.kpt_h * P.kpt_w → syn r c = from_kpt r c) ∧
  (∀ r c, c < P.bbox_weight_size →
    syn r (P.kpt_n_in * P.kpt_h * P.kpt_w + c) = from_box r c) ∧
  (∀ r c, syn r (P.kpt_n_in * P.kpt_h * P.kpt_w + P.bbox_weight_size + c) = from_part r c) ∧
  (∀ n co oy ox, P.forward_index_uv_from_all_lowres head_outputs H W bbox_weight n co oy ox =
    convTranspose2d P.dim_in H W P.kernel_size P.kernel_size 2 (P.kernel_size / 2 - 1)
      head_outputs (P.cascade_generate_surface_weights bbox_weight) (fun _ => 0) n co oy ox)

/-- C5: for indices within the output shape `(dim_in, S, kernel_size,
kernel_size)` (with `S = kpt_surface_transfer_matrix.size(0)`), the kernel
synthesized by `cascade_generate_surface_weights` satisfies
`CascadeSurfaceWeightsSpec`: exactly three learned linear transfers,
concatenated along `dim=1`, passed through the two-layer
`parameter_transformer`, reshaped, and used by `forward` as the
transposed-convolution kernel producing `index_uv_from_all`. -/
theorem cascade_generate_surface_weights_spec (P : DensePoseKTNv2PredictorV3)
    (bbox_weight : ℕ → ℕ → ℚ) (head_outputs : ℕ → ℕ → ℕ → ℕ → ℚ) (H W : ℕ)
    (i s y x : ℕ) (_hi : i < P.dim_in) (_hs : s < P.S)
    (_hy : y < P.kernel_size) (_hx : x < P.kernel_size) :
    CascadeSurfaceWeightsSpec P bbox_weight head_outputs H W i s y x := by
  unfold CascadeSurfaceWeightsSpec
  refine ⟨rfl, ?_, ?_, ?_, fun n co oy ox => rfl⟩
  · intro r c hc
    simp only [cat3]
    rw [if_pos hc]
  · intro r c hc
    simp only [cat3]
    rw [if_neg (by omega), if_pos (by omega)]
    congr 1
    omega
  · intro r c
    simp only [cat3]
    rw [if_neg (by omega), if_neg (by omega)]
    congr 1
    omega

/-- A small concrete predictor used to witness
`cascade_generate_surface_weights_spec`. -/
def examplePredictor : DensePoseKTNv2PredictorV3 where
  dim_in := 1
  kernel_size := 2
  dim_out_ann_index := 1
  bbox_weight_size := 1
  S := 1
  kpt_n_in := 1
  kpt_n_out := 1
  kpt_h := 2
  kpt_w := 2
  body_kpt_weight := fun _ _ _ _ => 1
  body_kpt_bias := fun _ => 0
  kpt_surface_transfer_matrix := fun _ _ => 1
  bbox_surface_transfer_matrix := fun _ _ => 1
  part_surface_transfer_matrix := fun _ _ => 1
  ann_index_lowres_weight := fun _ _ _ _ => 1
  pt_W1 := fun _ _ => 1
  pt_b1 := fun _ => 0
  pt_W2 := fun _ _ => 1
  pt_b2 := fun _ => 0

/-- Closed-form witness for `cascade_generate_surface_weights_spec` at a
concrete predictor, input and index. -/
theorem cascade_generate_surface_weights_spec_witness :
    (0 < examplePredictor.dim_in ∧ 0 < examplePredictor.S ∧
      0 < examplePredictor.kernel_size) ∧
    CascadeSurfaceWeightsSpec examplePredictor (fun _ _ => 1) (fun _ _ _ _ => 1)
      1 1 0 0 0 0 :=
  ⟨⟨by decide, by decide, by decide⟩,
    cascade_generate_surface_weights_spec examplePredictor (fun _ _ => 1) (fun _ _ _ _ => 1)
      1 1 0 0 0 0 (by decide) (by decide) (by decide) (by decide)⟩

/-- C7: when the proposal list is empty or no proposal carries DensePose
ground-truth points, `produce_densepose_losses` returns the fake-loss
dictionary, whose key set equals the key set of the non-empty path for the
same configuration, and all of whose values are zero. -/
theorem produceDenseposeLosses_empty_spec (segm_trained_by_masks : Bool)
    (uv_confidence : DensePoseUVConfidenceConfig) (proposals_with_gt : List GtImage)
    (s index_uv u v sigma_2 kappa_u kappa_v : Tensor4)
    (uv_loss u_loss v_loss index_uv_loss s_loss : ℝ)
    (hempty : proposals_with_gt = [] ∨ extractIWithDpAll proposals_with_gt 0 = []) :
    produceDenseposeLosses segm_trained_by_masks uv_confidence proposals_with_gt
        s index_uv u v sigma_2 kappa_u kappa_v uv_loss u_loss v_loss index_uv_loss s_loss =
      produceFakeDenseposeLosses segm_trained_by_masks uv_confidence
        s index_uv u v sigma_2 kappa_u kappa_v ∧
    ((produceFakeDenseposeLosses segm_trained_by_masks uv_confidence
        s index_uv u v sigma_2 kappa_u kappa_v).map Prod.fst).toFinset =
      ((produceRealDenseposeLosses segm_trained_by_masks uv_confidence
        uv_loss u_loss v_loss index_uv_loss s_loss).map Prod.fst).toFinset ∧
    (∀ key : String, ∀ val : ℝ, (key, val) ∈ produceFakeDenseposeLosses
        segm_trained_by_masks uv_confidence s index_uv u v sigma_2 kappa_u kappa_v →
      val = 0) := by
  obtain ⟨en, ty⟩ := uv_confidence
  refine ⟨?_, ?_, ?_⟩
  · unfold produceDenseposeLosses
    rcases hempty with h | h
    · rw [if_pos (by rw [h]; rfl)]
    · by_cases hp : proposals_with_gt.length = 0
      · rw [if_pos hp]
      · rw [if_neg hp, if_pos (by rw [h]; rfl)]
  · cases segm_trained_by_masks <;> cases en <;> cases ty <;>
      (ext a
       simp [produceFakeDenseposeLosses, produceRealDenseposeLosses]
       tauto)
  · intro key val hkv
    cases segm_trained_by_masks <;> cases en <;> cases ty <;>
        simp [produceFakeDenseposeLosses, Prod.ext_iff] at hkv <;>
      tauto

/-- Closed-form witness for `produceDenseposeLosses_empty_spec` on an empty
proposal list. -/
theorem produceDenseposeLosses_empty_spec_witness :
    (([] : List GtImage) = [] ∨ extractIWithDpAll ([] : List GtImage) 0 = []) ∧
      (produceDenseposeLosses false (DensePoseUVConfidenceConfig.mk true
          DensePoseUVConfidenceType.iid_iso) []
          (Tensor4.mk 0 0 0 0 fun _ _ _ _ => 0) (Tensor4.mk 0 0 0 0 fun _ _ _ _ => 0)
          (Tensor4.mk 0 0 0 0 fun _ _ _ _ => 0) (Tensor4.mk 0 0 0 0 fun _ _ _ _ => 0)
          (Tensor4.mk 0 0 0 0 fun _ _ _ _ => 0) (Tensor4.mk 0 0 0 0 fun _ _ _ _ => 0)
          (Tensor4.mk 0 0 0 0 fun _ _ _ _ => 0) 1 2 3 4 5 =
        produceFakeDenseposeLosses false (DensePoseUVConfidenceConfig.mk true
          DensePoseUVConfidenceType.iid_iso)
          (Tensor4.mk 0 0 0 0 fun _ _ _ _ => 0) (Tensor4.mk 0 0 0 0 fun _ _ _ _ => 0)
          (Tensor4.mk 0 0 0 0 fun _ _ _ _ => 0) (Tensor4.mk 0 0 0 0 fun _ _ _ _ => 0)
          (Tensor4.mk 0 0 0 0 fun _ _ _ _ => 0) (Tensor4.mk 0 0 0 0 fun _ _ _ _ => 0)
          (Tensor4.mk 0 0 0 0 fun _ _ _ _ => 0) ∧
      ((produceFakeDenseposeLosses false (DensePoseUVConfidenceConfig.mk true
          DensePoseUVConfidenceType.iid_iso)
          (Tensor4.mk 0 0 0 0 fun _ _ _ _ => 0) (Tensor4.mk 0 0 0 0 fun _ _ _ _ => 0)
          (Tensor4.mk 0 0 0 0 fun _ _ _ _ => 0) (Tensor4.mk 0 0 0 0 fun _ _ _ _ => 0)
          (Tensor4.mk 0 0 0 0 fun _ _ _ _ => 0) (Tensor4.mk 0 0 0 0 fun _ _ _ _ => 0)
          (Tensor4.mk 0 0 0 0 fun _ _ _ _ => 0)).map Prod.fst).toFinset =
        ((produceRealDenseposeLosses false (DensePoseUVConfidenceConfig.mk true
          DensePoseUVConfidenceType.iid_iso) 1 2 3 4 5).map Prod.fst).toFinset ∧
      (∀ key : String, ∀ val : ℝ, (key, val) ∈ produceFakeDenseposeLosses false
          (DensePoseUVConfidenceConfig.mk true DensePoseUVConfidenceType.iid_iso)
          (Tensor4.mk 0 0 0 0 fun _ _ _ _ => 0) (Tensor4.mk 0 0 0 0 fun _ _ _ _ => 0)
          (Tensor4.mk 0 0 0 0 fun _ _ _ _ => 0) (Tensor4.mk 0 0 0 0 fun _ _ _ _ => 0)
          (Tensor4.mk 0 0 0 0 fun _ _ _ _ => 0) (Tensor4.mk 0 0 0 0 fun _ _ _ _ => 0)
          (Tensor4.mk 0 0 0 0 fun _ _ _ _ => 0) → val = 0)) :=
  ⟨Or.inl rfl,
    produceDenseposeLosses_empty_spec false (DensePoseUVConfidenceConfig.mk true
      DensePoseUVConfidenceType.iid_iso) []
      (Tensor4.mk 0 0 0 0 fun _ _ _ _ => 0) (Tensor4.mk 0 0 0 0 fun _ _ _ _ => 0)
      (Tensor4.mk 0 0 0 0 fun _ _ _ _ => 0) (Tensor4.mk 0 0 0 0 fun _ _ _ _ => 0)
      (Tensor4.mk 0 0 0 0 fun _ _ _ _ => 0) (Tensor4.mk 0 0 0 0 fun _ _ _ _ => 0)
      (Tensor4.mk 0 0 0 0 fun _ _ _ _ => 0) 1 2 3 4 5 (Or.inl rfl)⟩

/-- Helper: on the staircase logits `l j k = k`, the row maximum is `24`. -/
theorem maxLogit_cast (j : ℕ) : maxLogit (fun _ n => (n : ℝ)) j = 24 := by
  unfold maxLogit
  apply le_antisymm
  · apply Finset.sup'_le
    intro k hk
    have hk25 : k < 25 := Finset.mem_range.mp hk
    have : (k : ℝ) ≤ ((24 : ℕ) : ℝ) := by exact_mod_cast Nat.lt_succ_iff.mp hk25
    simpa using this
  · have h24 : (24 : ℕ) ∈ Finset.range 25 := by decide
    have := Finset.le_sup' (f := fun n : ℕ => ((n : ℝ))) (b := (24 : ℕ)) h24
    simpa using this

/-- Helper: on the staircase logits the softmax probabilities are strictly
increasing in the channel index. -/
theorem softmaxProb_cast_strictMono (j : ℕ) {t k : ℕ} (h : t < k) :
    softmaxProb (fun _ n => (n : ℝ)) j t < softmaxProb (fun _ n => (n : ℝ)) j k := by
  unfold softmaxProb
  have hD : 0 < ∑ r in Finset.range 25, Real.exp ((r : ℝ)) :=
    Finset.sum_pos (fun _ _ => Real.exp_pos _) (Finset.nonempty_range_iff.mpr (by norm_num))
  have hexp : Real.exp ((t : ℝ)) < Real.exp ((k : ℝ)) :=
    Real.exp_lt_exp.mpr (by exact_mod_cast h)
  exact div_lt_div_of_pos_right hexp hD

/-- Helper: on the staircase logits the ascending topk rank of channel `k`
is `k` itself. -/
theorem ascRank_cast (j k : ℕ) (hk : k < 25) :
    ascRank (fun _ n => (n : ℝ)) j k = k := by
  unfold ascRank
  have hcongr : ∀ t ∈ Finset.range 25,
      ((softmaxProb (fun _ n => (n : ℝ)) j t < softmaxProb (fun _ n => (n : ℝ)) j k ∨
        (softmaxProb (fun _ n => (n : ℝ)) j t = softmaxProb (fun _ n => (n : ℝ)) j k ∧
          t < k)) ↔ t < k) := by
    intro t _ht
    rcases lt_trichotomy t k with htk | htk | htk
    · exact ⟨fun _ => htk, fun _ => Or.inl (softmaxProb_cast_strictMono j htk)⟩
    · subst htk
      constructor
      · rintro (hlt | ⟨_, hlt⟩)
        · exact absurd hlt (lt_irrefl _)
        · exact hlt
      · intro hlt; exact absurd hlt (lt_irrefl _)
    · constructor
      · rintro (hlt | ⟨heq, hlt⟩)
        · exact absurd hlt (not_lt_of_gt (softmaxProb_cast_strictMono j htk))
        · exact hlt
      · intro hlt; omega
  rw [Finset.filter_congr hcongr]
  have : (Finset.range 25).filter (fun t => t < k) = Finset.range k := by
    ext a
    simp only [Finset.mem_filter, Finset.mem_range]
    omega
  rw [this, Finset.card_range]

/-- Helper: outside the long-tail channels `freq = [7, 8, 11, 12]` the
threshold weight vanishes, so `eql_w = 1`. -/
theorem aeqlW_not_freq (beta : ℕ → ℝ) (gt : ℕ → ℕ) (J : ℕ) (l : ℕ → ℕ → ℝ) (j k : ℕ)
    (h : ¬(k = 7 ∨ k = 8 ∨ k = 11 ∨ k = 12)) : aeqlW beta gt J l j k = 1 := by
  unfold aeqlW threshold_func
  rw [if_neg h]
  ring

/-- Helper: when the uniform draw is at least `0.99` the exclude weight
vanishes, so `eql_w = 1`. -/
theorem aeqlW_exclude_zero (beta : ℕ → ℝ) (gt : ℕ → ℕ) (J : ℕ) (l : ℕ → ℕ → ℝ) (j k : ℕ)
    (h : ¬ beta j < 0.99) : aeqlW beta gt J l j k = 1 := by
  unfold aeqlW exclude_func
  rw [if_neg h]
  ring

/-- Helper: on the staircase logits with ground truth `24` and a draw below
`0.99`, the weight of a non-ground-truth long-tail channel vanishes. -/
theorem aeqlW_half_freq (k : ℕ) (hk : k = 7 ∨ k = 8 ∨ k = 11 ∨ k = 12) :
    aeqlW (fun _ => 1 / 2) (fun _ => 24) 1 (fun _ n => (n : ℝ)) 0 k = 0 := by
  have hk25 : k < 25 := by rcases hk with rfl | rfl | rfl | rfl <;> norm_num
  have hk18 : k < 18 := by rcases hk with rfl | rfl | rfl | rfl <;> norm_num
  have hk24 : ¬(k = 24) := by rcases hk with rfl | rfl | rfl | rfl <;> norm_num
  unfold aeqlW exclude_func threshold_func aeqlCorrelation
  rw [ascRank_cast 0 k hk25]
  rw [if_pos hk18, if_pos hk, if_pos (show (1 / 2 : ℝ) < 0.99 by norm_num), if_neg hk24]
  ring

/-- Helper: on the staircase logits with one ground-truth point of class `24`
and unit part weight, the AEQL loss equals the log of the weighted
exponential sum minus a constant independent of the random draw. -/
theorem aeqlLoss_cast (beta : ℕ → ℝ) :
    aeqlIndexUvLoss beta 1 (fun _ n => (n : ℝ)) (fun _ => 24) 1 =
      Real.log (∑ t in Finset.range 25,
        aeqlW beta (fun _ => 24) 1 (fun _ n => (n : ℝ)) 0 t * Real.exp ((t : ℝ) - 24)) -
        (∑ k in Finset.range 25, ((k : ℝ) - 24)) / 250 := by
  unfold aeqlIndexUvLoss
  simp only [Finset.sum_range_one]
  unfold aeqlX
  rw [maxLogit_cast 0]
  rw [Finset.sum_sub_distrib, Finset.sum_const, Finset.card_range]
  push_cast
  ring

/-- C6 counterexample: two evaluations of the `loss_densepose_I` computation
on identical inputs give different values for two realizations of the uniform
draw made by `exclude_func` (`0.5 < 0.99 ≤ 0.995`), so
`produce_densepose_losses` is not a function of its inputs alone. -/
theorem aeqlIndexUvLoss_not_run_deterministic :
    aeqlIndexUvLoss (fun _ => 1 / 2) 1 (fun _ n => (n : ℝ)) (fun _ => 24) 1 ≠
      aeqlIndexUvLoss (fun _ => 199 / 200) 1 (fun _ n => (n : ℝ)) (fun _ => 24) 1 := by
  rw [aeqlLoss_cast, aeqlLoss_cast]
  set S1 := ∑ t in Finset.range 25,
    aeqlW (fun _ => 1 / 2) (fun _ => 24) 1 (fun _ n => (n : ℝ)) 0 t *
      Real.exp ((t : ℝ) - 24) with hS1
  set S2 := ∑ t in Finset.range 25,
    aeqlW (fun _ => 199 / 200) (fun _ => 24) 1 (fun _ n => (n : ℝ)) 0 t *
      Real.exp ((t : ℝ) - 24) with hS2
  have hW2 : ∀ t ∈ Finset.range 25,
      aeqlW (fun _ => (199 : ℝ) / 200) (fun _ => 24) 1 (fun _ n => (n : ℝ)) 0 t = 1 :=
    fun t _ => aeqlW_exclude_zero _ _ _ _ _ _ (by norm_num)
  have hW1 : ∀ t ∈ Finset.range 25,
      aeqlW (fun _ => (1 : ℝ) / 2) (fun _ => 24) 1 (fun _ n => (n : ℝ)) 0 t =
        if t = 7 ∨ t = 8 ∨ t = 11 ∨ t = 12 then 0 else 1 := by
    intro t _ht
    by_cases hfreq : t = 7 ∨ t = 8 ∨ t = 11 ∨ t = 12
    · rw [if_pos hfreq, aeqlW_half_freq t hfreq]
    · rw [if_neg hfreq, aeqlW_not_freq _ _ _ _ _ _ hfreq]
  have hS1pos : 0 < S1 := by
    rw [hS1]
    apply Finset.sum_pos'
    · intro t ht
      rw [hW1 t ht]
      by_cases h : t = 7 ∨ t = 8 ∨ t = 11 ∨ t = 12
      · rw [if_pos h]
        simp
      · rw [if_neg h, one_mul]
        exact (Real.exp_pos _).le
    · refine ⟨24, by norm_num, ?_⟩
      rw [hW1 24 (by norm_num), if_neg (by norm_num), one_mul]
      exact Real.exp_pos _
  have hlt : S1 < S2 := by
    rw [hS1, hS2]
    apply Finset.sum_lt_sum
    · intro t ht
      rw [hW1 t ht, hW2 t ht]
      by_cases h : t = 7 ∨ t = 8 ∨ t = 11 ∨ t = 12
      · rw [if_pos h]
        have := (Real.exp_pos ((t : ℝ) - 24)).le
        nlinarith
      · rw [if_neg h]
    · refine ⟨7, by norm_num, ?_⟩
      rw [hW1 7 (by norm_num), hW2 7 (by norm_num), if_pos (by norm_num), zero_mul, one_mul]
      exact Real.exp_pos _
  have hne : Real.log S1 ≠ Real.log S2 := ne_of_lt (Real.log_lt_log hS1pos hlt)
  intro heq
  exact hne (by linarith)

/-- C6 amended: the loss computation is deterministic as a function of the
inputs together with the uniform random tensor drawn by `exclude_func`;
evaluations agreeing on that draw produce identical loss values. -/
theorem aeqlIndexUvLoss_deterministic_given_draw (J : ℕ) (index_uv_est : ℕ → ℕ → ℝ)
    (index_uv_gt : ℕ → ℕ) (w_part : ℝ) (beta beta' : ℕ → ℝ) (h : beta = beta') :
    aeqlIndexUvLoss beta J index_uv_est index_uv_gt w_part =
      aeqlIndexUvLoss beta' J index_uv_est index_uv_gt w_part := by rw [h]

/-- Closed-form witness for `aeqlIndexUvLoss_deterministic_given_draw` at a
concrete input and draw. -/
theorem aeqlIndexUvLoss_deterministic_given_draw_witness :
    ((fun _ : ℕ => (1 / 2 : ℝ)) = (fun _ : ℕ => (1 / 2 : ℝ))) ∧
      aeqlIndexUvLoss (fun _ => 1 / 2) 1 (fun _ n => (n : ℝ)) (fun _ => 24) 1 =
        aeqlIndexUvLoss (fun _ => 1 / 2) 1 (fun _ n => (n : ℝ)) (fun _ => 24) 1 :=
  ⟨rfl, aeqlIndexUvLoss_deterministic_given_draw 1 (fun _ n => (n : ℝ)) (fun _ => 24) 1
    (fun _ => 1 / 2) (fun _ => 1 / 2) rfl⟩

end KTN
